import Mathlib

/-!
Shallow embedding of the `regulus` loudness-measurement core
(`src/filter.rs` and `src/loudness.rs`).

Modelling conventions:
* `f64` is idealized. For the filter cascade and the gating algorithm over
  ordinary inputs it is modelled by an arbitrary field (claims about ordering
  use a `LinearOrderedField`); decimal literals of the source are read as
  exact rationals. For the claim about non-finite values it is modelled by
  `F64`, exact rationals extended with `nan` and signed infinities together
  with IEEE-754 special-value propagation and comparison semantics.
* The transcendental functions used by the source (`tan`, `powf`, `log10`)
  and the constant pi are taken as parameters: every claim here is about the
  algebraic structure of the computations, which holds for any interpretation
  of those functions.
* A dasp frame (multi-channel sample) is a function `Fin n → α`; the dasp
  operations used by the source are elementwise: `add_amp` is elementwise
  addition, `scale_amp` multiplies every channel by a scalar, `EQUILIBRIUM`
  is the all-zero frame, and the `to_sample` conversion in `FilterPass::apply`
  is the identity (inputs are already in working precision here).
* Rust iterators are reflected as explicit state: `FilteredSamples.next`
  consumes the head of the remaining sample list.
-/

namespace Regulus

/-- A multi-channel sample or per-block power vector with `n` channels. -/
abbrev Frame (n : ℕ) (α : Type) := Fin n → α

/-- The all-zero frame, dasp `Frame::EQUILIBRIUM` for `f64` samples. -/
def equilibrium (n : ℕ) (α : Type) [Zero α] : Frame n α := fun _ => 0

/-- The two filter kinds of `src/filter.rs` (`enum Kind`). -/
inductive Kind where
  | shelving
  | highPass
deriving DecidableEq

/-- Biquad coefficients (`struct Coefficients` of `src/filter.rs`); the `a0`
coefficient is normalized to 1 and not stored. -/
structure Coefficients (α : Type) where
  b0 : α
  b1 : α
  b2 : α
  a1 : α
  a2 : α
deriving DecidableEq

/-- Embedding of `Kind::coefficients` of `src/filter.rs`. The field `α` models
`f64`; `tan`, `pi` and `powf` are the corresponding `f64` operations, which the
source takes from the standard library, left abstract here. Decimal literals of
the source are read as exact rationals. -/
def Kind.coefficients {α : Type} [Field α] (tan : α → α) (pi : α)
    (powf : α → α → α) (kind : Kind) (sample_rate : ℕ) : Coefficients α :=
  let f0q : α × α :=
    match kind with
    | .shelving => ((1681974450955533 : α) / 10 ^ 12, (7071752369554196 : α) / 10 ^ 16)
    | .highPass => ((3813547087602444 : α) / 10 ^ 14, (5003270373238773 : α) / 10 ^ 16)
  let f0 := f0q.1
  let q := f0q.2
  let k := tan (pi * f0 / (sample_rate : α))
  let k_by_q := k / q
  let k_sq := k * k
  let a0 := 1 + k_by_q + k_sq
  let a1 := 2 * (k_sq - 1) / a0
  let a2 := (1 - k_by_q + k_sq) / a0
  let b012 : α × α × α :=
    match kind with
    | .shelving =>
        let height := (3999843853973347 : α) / 10 ^ 15
        let vh := powf 10 (height / 20)
        let vb := powf vh ((4996667741545416 : α) / 10 ^ 16)
        let b0 := (vh + vb * k_by_q + k_sq) / a0
        let b1 := 2 * (k_sq - vh) / a0
        let b2 := (vh - vb * k_by_q + k_sq) / a0
        (b0, b1, b2)
    | .highPass => (1, -2, 1)
  { b0 := b012.1, b1 := b012.2.1, b2 := b012.2.2, a1 := a1, a2 := a2 }

/-- One biquad pass (`struct FilterPass` of `src/filter.rs`): coefficients plus
the two channel-shaped delay vectors. -/
structure FilterPass (n : ℕ) (α : Type) where
  coeff : Coefficients α
  m1 : Frame n α
  m2 : Frame n α

/-- Embedding of `FilterPass::from_coeff`: both delay vectors start at the
equilibrium (all-zero) frame. -/
def FilterPass.fromCoeff {n : ℕ} {α : Type} [Field α] (coeff : Coefficients α) :
    FilterPass n α :=
  { coeff := coeff, m1 := equilibrium n α, m2 := equilibrium n α }

/-- Embedding of `FilterPass::from_kind`. -/
def FilterPass.fromKind {n : ℕ} {α : Type} [Field α] (tan : α → α) (pi : α)
    (powf : α → α → α) (kind : Kind) (sample_rate : ℕ) : FilterPass n α :=
  FilterPass.fromCoeff (kind.coefficients tan pi powf sample_rate)

/-- Embedding of `FilterPass::apply` (Direct Form II Transposed). The source
mutates `self`; here the updated pass is returned alongside the output frame.
`add_amp` and `scale_amp` are elementwise addition and scalar multiplication,
and the `to_sample` conversion of the input is the identity. -/
def FilterPass.apply {n : ℕ} {α : Type} [Field α] (self : FilterPass n α)
    (input : Frame n α) : Frame n α × FilterPass n α :=
  let co := self.coeff
  let out : Frame n α := fun i => self.m1 i + input i * co.b0
  let m1 : Frame n α := fun i => self.m2 i + (input i * co.b1 + out i * (-co.a1))
  let m2 : Frame n α := fun i => input i * co.b2 + out i * (-co.a2)
  (out, { coeff := co, m1 := m1, m2 := m2 })

/-- The two-pass K-weighting filter (`struct Filter` of `src/filter.rs`). -/
structure Filter (n : ℕ) (α : Type) where
  pass_a : FilterPass n α
  pass_b : FilterPass n α

/-- Embedding of `Filter::new`: a shelving pass and a high-pass pass for the
given sample rate. -/
def Filter.new {α : Type} [Field α] (n : ℕ) (tan : α → α) (pi : α)
    (powf : α → α → α) (sample_rate : ℕ) : Filter n α :=
  { pass_a := FilterPass.fromKind tan pi powf Kind.shelving sample_rate
    pass_b := FilterPass.fromKind tan pi powf Kind.highPass sample_rate }

/-- Embedding of `Filter::apply`: pass `a` (shelving) first, then pass `b`
(high-pass), both states updated. -/
def Filter.apply {n : ℕ} {α : Type} [Field α] (self : Filter n α)
    (input : Frame n α) : Frame n α × Filter n α :=
  let ra := self.pass_a.apply input
  let rb := self.pass_b.apply ra.1
  (rb.1, { pass_a := ra.2, pass_b := rb.2 })

/-- Repeated application of one biquad pass to a finite list of input frames,
threading the delay state: returns the outputs in input order and the final
state. -/
def FilterPass.runList {n : ℕ} {α : Type} [Field α] (fp : FilterPass n α) :
    List (Frame n α) → List (Frame n α) × FilterPass n α
  | [] => ([], fp)
  | x :: xs =>
      let r := fp.apply x
      let rest := r.2.runList xs
      (r.1 :: rest.1, rest.2)

/-- Repeated application of the two-pass filter to a finite list of input
frames, threading the state: the denotation of repeatedly pulling from the
`FilteredSamples` iterator. Returns the outputs in input order and the final
filter state. -/
def Filter.runList {n : ℕ} {α : Type} [Field α] (f : Filter n α) :
    List (Frame n α) → List (Frame n α) × Filter n α
  | [] => ([], f)
  | x :: xs =>
      let r := f.apply x
      let rest := r.2.runList xs
      (r.1 :: rest.1, rest.2)

/-- Embedding of `struct FilteredSamples` of `src/filter.rs`: the remaining
samples of the underlying iterator plus the filter state. -/
structure FilteredSamples (n : ℕ) (α : Type) where
  samples : List (Frame n α)
  filter : Filter n α

/-- Embedding of `FilteredSamples::new`. -/
def FilteredSamples.new {α : Type} [Field α] (n : ℕ) (tan : α → α) (pi : α)
    (powf : α → α → α) (samples : List (Frame n α)) (sample_rate : ℕ) :
    FilteredSamples n α :=
  { samples := samples, filter := Filter.new n tan pi powf sample_rate }

/-- Embedding of `Iterator::next` for `FilteredSamples`: pull one raw sample
(the head of the remaining list), filter it, yield it. -/
def FilteredSamples.next {n : ℕ} {α : Type} [Field α]
    (self : FilteredSamples n α) : Option (Frame n α × FilteredSamples n α) :=
  match self.samples with
  | [] => none
  | x :: rest =>
      some ((self.filter.apply x).1,
            { samples := rest, filter := (self.filter.apply x).2 })

/-- Embedding of `ExactSizeIterator::len` (and `size_hint`) for
`FilteredSamples`: delegates to the underlying source unchanged. -/
def FilteredSamples.len {n : ℕ} {α : Type} (self : FilteredSamples n α) : ℕ :=
  self.samples.length

/-- All remaining outputs of the `FilteredSamples` iterator. -/
def FilteredSamples.toList {n : ℕ} {α : Type} [Field α]
    (self : FilteredSamples n α) : List (Frame n α) :=
  (self.filter.runList self.samples).1

/-- Scalar operations of the `f64` model used by the gating algorithm.
Abstracting them lets the same embedding of `Loudness::from_gated_powers` be
read both over an idealized ordered field and over the IEEE-style `F64` model
with non-finite values. `lt a b` models the Rust comparison `b > a`
(equivalently `a < b`); `ofRat` interprets the numeric literals of the source. -/
structure FloatOps (α : Type) where
  add : α → α → α
  mul : α → α → α
  sub : α → α → α
  div : α → α → α
  lt : α → α → Bool
  ofRat : ℚ → α
  log10 : α → α

/-- Weighted channel sum `Σ_i weights[i] · powers[i]`, accumulated left to
right from zero. -/
def FloatOps.dot {n : ℕ} {α : Type} (ops : FloatOps α) (weights powers : Frame n α) : α :=
  (List.ofFn fun i => ops.mul (weights i) (powers i)).foldl ops.add (ops.ofRat 0)

/-- Modelled from the spec: `Util::loudness` (the file `src/util.rs` is not
part of the sources given). Spec section 4.6:
`L(power_vector, weights) = -0.691 + 10 * log10(sum_i weights[i] * power_vector[i])`. -/
def Util.loudness {n : ℕ} {α : Type} (ops : FloatOps α)
    (channel_powers channel_weights : Frame n α) : α :=
  ops.add (ops.ofRat (-(691 / 1000)))
    (ops.mul (ops.ofRat 10) (ops.log10 (ops.dot channel_weights channel_powers)))

/-- Modelled from the spec: `Stats` (the file `src/stats.rs` is not part of
the sources given). Spec sections 3 and 4.5: a running per-channel arithmetic
mean, `add` incorporates one vector and increments the count, and the mean
invariant is that `mean` equals the arithmetic average of all vectors added so
far (a division by the count, indeterminate at count zero). Modelled as the
exact channel-wise sum together with the count, with `mean = total / count`. -/
structure Stats (n : ℕ) (α : Type) where
  total : Frame n α
  count : ℕ

/-- Modelled from the spec: `Stats::new`, the empty accumulator. -/
def Stats.new {α : Type} (n : ℕ) (ops : FloatOps α) : Stats n α :=
  { total := fun _ => ops.ofRat 0, count := 0 }

/-- Modelled from the spec: `Stats::add`, incorporating one power vector. -/
def Stats.add {n : ℕ} {α : Type} (self : Stats n α) (ops : FloatOps α)
    (v : Frame n α) : Stats n α :=
  { total := fun i => ops.add (self.total i) (v i), count := self.count + 1 }

/-- Modelled from the spec: the `mean` of `Stats`, the arithmetic average of
all vectors added so far (division by zero when the count is zero). -/
def Stats.mean {n : ℕ} {α : Type} (self : Stats n α) (ops : FloatOps α) :
    Frame n α :=
  fun i => ops.div (self.total i) (ops.ofRat self.count)

/-- The absolute loudness threshold constant of `src/loudness.rs`, -70.0. -/
def absoluteLoudnessThreshold {α : Type} (ops : FloatOps α) : α := ops.ofRat (-70)

/-- Embedding of `Loudness::from_gated_powers` of `src/loudness.rs`. The first
pass walks the enumerated blocks, averaging the channel powers of every block
whose loudness is strictly above -70.0 and retaining `(index, loudness,
powers)` triples; the second pass averages the retained blocks whose recorded
loudness is strictly above `absolute_loudness - 10.0`; the result is the
loudness of the second mean. The `println!` calls and the `num_gates` counter
of the source only produce log output and are omitted. -/
def Loudness.fromGatedPowers {n : ℕ} {α : Type} (ops : FloatOps α)
    (gated_powers : List (Frame n α))
    (channel_weights : Frame n α) : α :=
  let pass1 :=
    gated_powers.enum.foldl
      (fun (acc : Stats n α × List (ℕ × α × Frame n α)) jp =>
        let block_loudness := Util.loudness ops jp.2 channel_weights
        if ops.lt (absoluteLoudnessThreshold ops) block_loudness then
          (acc.1.add ops jp.2, acc.2 ++ [(jp.1, block_loudness, jp.2)])
        else acc)
      (Stats.new n ops, [])
  let averager := pass1.1
  let absolutely_loud_blocks := pass1.2
  let absolute_loudness := Util.loudness ops (averager.mean ops) channel_weights
  let relative_loudness_threshold := ops.sub absolute_loudness (ops.ofRat 10)
  let relative_averager :=
    absolutely_loud_blocks.foldl
      (fun (acc : Stats n α) t =>
        if ops.lt relative_loudness_threshold t.2.1 then acc.add ops t.2.2
        else acc)
      (Stats.new n ops)
  Util.loudness ops (relative_averager.mean ops) channel_weights

/-- The `FloatOps` of an idealized real model of `f64`: a linear ordered field
with an abstract `log10`. -/
def fieldOps (α : Type) [LinearOrderedField α] (log10 : α → α) : FloatOps α :=
  { add := fun a b => a + b
    mul := fun a b => a * b
    sub := fun a b => a - b
    div := fun a b => a / b
    lt := fun a b => decide (a < b)
    ofRat := fun q => (q : α)
    log10 := log10 }

/-- Model of IEEE-754 `f64` values for the claims about non-finite inputs:
exact rationals extended with a quiet NaN and the two infinities. Signed
zeros and rounding are idealized away; what matters for the gating claims is
the propagation of `nan` and infinities through arithmetic and the comparison
semantics (every comparison with `nan` is false). -/
inductive F64 where
  | nan
  | pinf
  | ninf
  | num (q : ℚ)
deriving DecidableEq

/-- IEEE addition on the `F64` model: `nan` absorbs, opposite infinities give
`nan`, an infinity dominates finite values. -/
def F64.add : F64 → F64 → F64
  | nan, _ => nan
  | _, nan => nan
  | pinf, ninf => nan
  | ninf, pinf => nan
  | pinf, _ => pinf
  | _, pinf => pinf
  | ninf, _ => ninf
  | _, ninf => ninf
  | num a, num b => num (a + b)

/-- IEEE negation on the `F64` model. -/
def F64.neg : F64 → F64
  | nan => nan
  | pinf => ninf
  | ninf => pinf
  | num a => num (-a)

/-- IEEE subtraction on the `F64` model, `a - b = a + (-b)`. -/
def F64.sub (a b : F64) : F64 := a.add b.neg

/-- IEEE multiplication on the `F64` model: `nan` absorbs, infinity times zero
is `nan`, otherwise infinities follow the sign rule. -/
def F64.mul : F64 → F64 → F64
  | nan, _ => nan
  | _, nan => nan
  | pinf, pinf => pinf
  | pinf, ninf => ninf
  | ninf, pinf => ninf
  | ninf, ninf => pinf
  | pinf, num b => if 0 < b then pinf else if b < 0 then ninf else nan
  | num a, pinf => if 0 < a then pinf else if a < 0 then ninf else nan
  | ninf, num b => if 0 < b then ninf else if b < 0 then pinf else nan
  | num a, ninf => if 0 < a then ninf else if a < 0 then pinf else nan
  | num a, num b => num (a * b)

/-- IEEE division on the `F64` model: `nan` absorbs, infinity over infinity is
`nan`, zero over zero is `nan`, a nonzero finite value over zero is a signed
infinity, a finite value over an infinity is zero. -/
def F64.div : F64 → F64 → F64
  | nan, _ => nan
  | _, nan => nan
  | pinf, pinf => nan
  | pinf, ninf => nan
  | ninf, pinf => nan
  | ninf, ninf => nan
  | pinf, num b => if b < 0 then ninf else pinf
  | ninf, num b => if b < 0 then pinf else ninf
  | num _, pinf => num 0
  | num _, ninf => num 0
  | num a, num b =>
      if b = 0 then (if a = 0 then nan else if 0 < a then pinf else ninf)
      else num (a / b)

/-- IEEE strict comparison on the `F64` model: any comparison involving `nan`
is false; otherwise the order is `ninf < num _ < pinf`. -/
def F64.lt : F64 → F64 → Bool
  | nan, _ => false
  | _, nan => false
  | ninf, ninf => false
  | ninf, _ => true
  | _, ninf => false
  | pinf, _ => false
  | num _, pinf => true
  | num a, num b => decide (a < b)

/-- The `FloatOps` of the IEEE-style `F64` model; `log10` stays abstract but
is expected to map `nan` to `nan` where the claims need it. -/
def f64Ops (log10 : F64 → F64) : FloatOps F64 :=
  { add := F64.add
    mul := F64.mul
    sub := F64.sub
    div := F64.div
    lt := F64.lt
    ofRat := F64.num
    log10 := log10 }

/-- Formulated from the spec, for comparison with the embedding: the loudness
formula `L(p, w) = -0.691 + 10 * log10(sum_i w[i] * p[i])` over an idealized
field, with the mathematical (finite) channel sum. -/
def Lspec {n : ℕ} {α : Type} [LinearOrderedField α] (log10 : α → α)
    (w p : Frame n α) : α :=
  -(691 / 1000 : α) + 10 * log10 (∑ i, w i * p i)

/-- Arithmetic mean of a list of frames, channel-wise (zero frame by the
division-by-zero convention of the field when the list is empty). -/
def listMean {n : ℕ} {α : Type} [Field α] (l : List (Frame n α)) : Frame n α :=
  fun i => (l.map fun p => p i).sum / (l.length : α)

/-- Formulated from the spec: the blocks retained by the absolute gating pass,
exactly those with loudness strictly greater than -70.0. -/
def absGated {n : ℕ} {α : Type} [LinearOrderedField α] (log10 : α → α)
    (blocks : List (Frame n α)) (w : Frame n α) : List (Frame n α) :=
  blocks.filter fun p => decide ((-70 : α) < Lspec log10 w p)

/-- Formulated from the spec: the relative loudness threshold, the loudness of
the mean of the absolutely gated blocks minus 10. -/
def relThreshold {n : ℕ} {α : Type} [LinearOrderedField α] (log10 : α → α)
    (blocks : List (Frame n α)) (w : Frame n α) : α :=
  Lspec log10 w (listMean (absGated log10 blocks w)) - 10

/-- Formulated from the spec: the blocks retained by the relative gating pass,
exactly the absolutely gated blocks with loudness strictly greater than the
relative threshold. -/
def relGated {n : ℕ} {α : Type} [LinearOrderedField α] (log10 : α → α)
    (blocks : List (Frame n α)) (w : Frame n α) : List (Frame n α) :=
  (absGated log10 blocks w).filter fun p =>
    decide (relThreshold log10 blocks w < Lspec log10 w p)

/-! Theorems. -/

/-- Claim C2: one call to `FilterPass.apply` computes, per channel,
`out = m1 + input * b0`, updates the state to `m1 = m2 + input * b1 + out * (-a1)`
and `m2 = input * b2 + out * (-a2)` (coefficients unchanged), and a freshly
constructed pass has both delay vectors equal to the zero (equilibrium)
frame. -/
theorem filterPass_apply_dfii {n : ℕ} {α : Type} [Field α]
    (fp : FilterPass n α) (input : Frame n α) (c : Coefficients α) (i : Fin n) :
    (fp.apply input).1 i = fp.m1 i + input i * fp.coeff.b0
    ∧ (fp.apply input).2.m1 i
        = fp.m2 i + input i * fp.coeff.b1 + (fp.apply input).1 i * (-fp.coeff.a1)
    ∧ (fp.apply input).2.m2 i
        = input i * fp.coeff.b2 + (fp.apply input).1 i * (-fp.coeff.a2)
    ∧ (fp.apply input).2.coeff = fp.coeff
    ∧ (FilterPass.fromCoeff (n := n) c).m1 i = 0
    ∧ (FilterPass.fromCoeff (n := n) c).m2 i = 0 := by
  refine ⟨rfl, ?_, rfl, rfl, rfl, rfl⟩
  simp only [FilterPass.apply]
  ring

/-- Claim C3: for each kind and every sample rate the designed coefficients
follow the bilinear-transform formulas with the exact fixed constants of the
source (`f0`, `Q` per kind, and the shelving boost height), and the HighPass
numerator is returned as exactly `b0 = 1, b1 = -2, b2 = 1`. -/
theorem kind_coefficients_formulas {α : Type} [Field α] (tan : α → α) (pi : α)
    (powf : α → α → α) (sample_rate : ℕ) :
    (let f0 : α := 1681974450955533 / 10 ^ 12
     let q : α := 7071752369554196 / 10 ^ 16
     let k := tan (pi * f0 / (sample_rate : α))
     let a0 := 1 + k / q + k * k
     let vh := powf 10 ((3999843853973347 / 10 ^ 15 : α) / 20)
     let vb := powf vh (4996667741545416 / 10 ^ 16)
     Kind.coefficients tan pi powf Kind.shelving sample_rate =
       { b0 := (vh + vb * (k / q) + k * k) / a0
         b1 := 2 * (k * k - vh) / a0
         b2 := (vh - vb * (k / q) + k * k) / a0
         a1 := 2 * (k * k - 1) / a0
         a2 := (1 - k / q + k * k) / a0 })
    ∧ (let f0 : α := 3813547087602444 / 10 ^ 14
       let q : α := 5003270373238773 / 10 ^ 16
       let k := tan (pi * f0 / (sample_rate : α))
       let a0 := 1 + k / q + k * k
       Kind.coefficients tan pi powf Kind.highPass sample_rate =
         { b0 := 1
           b1 := -2
           b2 := 1
           a1 := 2 * (k * k - 1) / a0
           a2 := (1 - k / q + k * k) / a0 }) :=
  ⟨rfl, rfl⟩

/-- Claim C4: `Filter.apply` is the shelving pass followed by the high-pass
pass, both states updated, and `Filter.new` constructs exactly those two
passes for the sample rate. -/
theorem filter_apply_cascade {n : ℕ} {α : Type} [Field α]
    (f : Filter n α) (input : Frame n α) (tan : α → α) (pi : α)
    (powf : α → α → α) (sample_rate : ℕ) :
    (f.apply input).1 = (f.pass_b.apply ((f.pass_a.apply input).1)).1
    ∧ (f.apply input).2.pass_a = (f.pass_a.apply input).2
    ∧ (f.apply input).2.pass_b = (f.pass_b.apply ((f.pass_a.apply input).1)).2
    ∧ (Filter.new n tan pi powf sample_rate).pass_a
        = FilterPass.fromKind tan pi powf Kind.shelving sample_rate
    ∧ (Filter.new n tan pi powf sample_rate).pass_b
        = FilterPass.fromKind tan pi powf Kind.highPass sample_rate :=
  ⟨rfl, rfl, rfl, rfl, rfl⟩

/-- Claim C9: on its first input, the freshly constructed two-pass filter
returns exactly what a freshly constructed shelving-only pass returns, because
the high-pass numerator has `b0 = 1` and both passes start from zero state. -/
theorem filter_first_output_eq_shelving {n : ℕ} {α : Type} [Field α]
    (tan : α → α) (pi : α) (powf : α → α → α) (sample_rate : ℕ)
    (x : Frame n α) (i : Fin n) :
    ((Filter.new n tan pi powf sample_rate).apply x).1 i
      = ((FilterPass.fromKind (n := n) tan pi powf Kind.shelving sample_rate).apply x).1 i := by
  show (0 : α) + (((FilterPass.fromKind (n := n) tan pi powf Kind.shelving sample_rate).apply x).1 i) * 1 = _
  ring

lemma filterPass_apply_equilibrium {n : ℕ} {α : Type} [Field α]
    (c : Coefficients α) :
    (FilterPass.fromCoeff (n := n) c).apply (equilibrium n α)
      = (equilibrium n α, FilterPass.fromCoeff c) := by
  simp [FilterPass.apply, FilterPass.fromCoeff, equilibrium, Prod.mk.injEq,
    FilterPass.mk.injEq, funext_iff]

lemma filterPass_runList_replicate_zero {n : ℕ} {α : Type} [Field α]
    (c : Coefficients α) (m : ℕ) :
    (FilterPass.fromCoeff (n := n) c).runList (List.replicate m (equilibrium n α))
      = (List.replicate m (equilibrium n α), FilterPass.fromCoeff c) := by
  induction m with
  | zero => rfl
  | succ m ih =>
      simp [List.replicate_succ, FilterPass.runList, filterPass_apply_equilibrium, ih]

lemma filter_apply_equilibrium {n : ℕ} {α : Type} [Field α]
    (ca cb : Coefficients α) :
    (Filter.mk (FilterPass.fromCoeff (n := n) ca) (FilterPass.fromCoeff cb)).apply
        (equilibrium n α)
      = (equilibrium n α,
         Filter.mk (FilterPass.fromCoeff ca) (FilterPass.fromCoeff cb)) := by
  simp [Filter.apply, filterPass_apply_equilibrium]

lemma filter_runList_replicate_zero {n : ℕ} {α : Type} [Field α]
    (ca cb : Coefficients α) (m : ℕ) :
    (Filter.mk (FilterPass.fromCoeff (n := n) ca) (FilterPass.fromCoeff cb)).runList
        (List.replicate m (equilibrium n α))
      = (List.replicate m (equilibrium n α),
         Filter.mk (FilterPass.fromCoeff ca) (FilterPass.fromCoeff cb)) := by
  induction m with
  | zero => rfl
  | succ m ih =>
      simp [List.replicate_succ, Filter.runList, filter_apply_equilibrium, ih]

/-- Claim C6: for every sample rate, channel count and iteration count, a
freshly constructed pass or two-pass filter maps the all-zero frame to the
all-zero frame with unchanged (zero) delay state, at a single step and at
every step of an iterated run. -/
theorem zero_input_fixed_point {n : ℕ} {α : Type} [Field α]
    (tan : α → α) (pi : α) (powf : α → α → α) (sample_rate : ℕ)
    (kind : Kind) (m : ℕ) :
    (FilterPass.fromKind (n := n) tan pi powf kind sample_rate).apply (equilibrium n α)
        = (equilibrium n α, FilterPass.fromKind tan pi powf kind sample_rate)
    ∧ (FilterPass.fromKind (n := n) tan pi powf kind sample_rate).runList
          (List.replicate m (equilibrium n α))
        = (List.replicate m (equilibrium n α),
           FilterPass.fromKind tan pi powf kind sample_rate)
    ∧ (Filter.new n tan pi powf sample_rate).apply (equilibrium n α)
        = (equilibrium n α, Filter.new n tan pi powf sample_rate)
    ∧ (Filter.new n tan pi powf sample_rate).runList
          (List.replicate m (equilibrium n α))
        = (List.replicate m (equilibrium n α),
           Filter.new n tan pi powf sample_rate) :=
  ⟨filterPass_apply_equilibrium _,
   filterPass_runList_replicate_zero _ m,
   filter_apply_equilibrium _ _,
   filter_runList_replicate_zero _ _ m⟩

lemma filter_runList_length {n : ℕ} {α : Type} [Field α]
    (f : Filter n α) (ys : List (Frame n α)) :
    (f.runList ys).1.length = ys.length := by
  induction ys generalizing f with
  | nil => rfl
  | cons x xs ih => simp [Filter.runList, ih]

/-- Claim C5: pulling one output from `FilteredSamples` pulls exactly one
input sample (the head) and yields its filtered value, outputs come in strict
input order, a finite input of length L yields exactly L outputs, and the
reported remaining length equals that of the underlying source unchanged. -/
theorem filteredSamples_one_to_one {n : ℕ} {α : Type} [Field α]
    (f : Filter n α) (x : Frame n α) (xs ys : List (Frame n α)) :
    (FilteredSamples.mk ([] : List (Frame n α)) f).next = none
    ∧ (FilteredSamples.mk (x :: xs) f).next
        = some ((f.apply x).1, FilteredSamples.mk xs (f.apply x).2)
    ∧ (FilteredSamples.mk (x :: xs) f).toList
        = (f.apply x).1 :: (FilteredSamples.mk xs (f.apply x).2).toList
    ∧ (FilteredSamples.mk ys f).toList.length = ys.length
    ∧ (FilteredSamples.mk ys f).len = ys.length :=
  ⟨rfl, rfl, rfl, filter_runList_length f ys, rfl⟩

/-- Claim C7: two independently constructed filters for the same sample rate
fed identical input sequences produce identical output sequences, and the
coefficient designer is a pure function of kind and sample rate. -/
theorem filter_deterministic {n : ℕ} {α : Type} [Field α]
    (tan : α → α) (pi : α) (powf : α → α → α) (sr sr2 : ℕ)
    (f g : Filter n α) (xs ys : List (Frame n α)) (kind : Kind)
    (hf : f = Filter.new n tan pi powf sr) (hg : g = Filter.new n tan pi powf sr)
    (hxy : xs = ys) (hsr : sr = sr2) :
    f.runList xs = g.runList ys
    ∧ Kind.coefficients tan pi powf kind sr
        = Kind.coefficients tan pi powf kind sr2 := by
  subst hf hg hxy hsr
  exact ⟨rfl, rfl⟩

/-- Concrete instantiation of `filter_deterministic`, all hypotheses
discharged at a fixed input. -/
theorem filter_deterministic_witness :
    (Filter.new 1 (fun x : ℚ => x) 0 (fun a b => a * b) 48000
        = Filter.new 1 (fun x : ℚ => x) 0 (fun a b => a * b) 48000)
    ∧ ((Filter.new 1 (fun x : ℚ => x) 0 (fun a b => a * b) 48000).runList
          [fun _ => 1]
        = (Filter.new 1 (fun x : ℚ => x) 0 (fun a b => a * b) 48000).runList
          [fun _ => 1])
    ∧ Kind.coefficients (fun x : ℚ => x) 0 (fun a b => a * b) Kind.shelving 48000
        = Kind.coefficients (fun x : ℚ => x) 0 (fun a b => a * b) Kind.shelving 48000 :=
  ⟨rfl,
   filter_deterministic (fun x : ℚ => x) 0 (fun a b => a * b) 48000 48000 _ _
     [fun _ => 1] [fun _ => 1] Kind.shelving rfl rfl rfl rfl⟩

/-- Two frame sequences agree on channel `i` at every sample. -/
def framesAgree {n : ℕ} {α : Type} (i : Fin n) (xs ys : List (Frame n α)) : Prop :=
  List.Forall₂ (fun a b => a i = b i) xs ys

/-- Two passes have the same coefficients and agree on channel `i` of both
delay vectors. -/
def passAgree {n : ℕ} {α : Type} (i : Fin n) (fp gp : FilterPass n α) : Prop :=
  fp.coeff = gp.coeff ∧ fp.m1 i = gp.m1 i ∧ fp.m2 i = gp.m2 i

/-- Two two-pass filters agree on channel `i` of all delay state, with equal
coefficients. -/
def filterAgree {n : ℕ} {α : Type} (i : Fin n) (f g : Filter n α) : Prop :=
  passAgree i f.pass_a g.pass_a ∧ passAgree i f.pass_b g.pass_b

lemma passAgree_apply {n : ℕ} {α : Type} [Field α] {i : Fin n}
    {fp gp : FilterPass n α} {x y : Frame n α}
    (h : passAgree i fp gp) (hx : x i = y i) :
    (fp.apply x).1 i = (gp.apply y).1 i
    ∧ passAgree i (fp.apply x).2 (gp.apply y).2 := by
  obtain ⟨hc, h1, h2⟩ := h
  refine ⟨?_, ?_, ?_, ?_⟩ <;> simp [FilterPass.apply, passAgree, hc, h1, h2, hx]

lemma filterAgree_apply {n : ℕ} {α : Type} [Field α] {i : Fin n}
    {f g : Filter n α} {x y : Frame n α}
    (h : filterAgree i f g) (hx : x i = y i) :
    (f.apply x).1 i = (g.apply y).1 i
    ∧ filterAgree i (f.apply x).2 (g.apply y).2 := by
  obtain ⟨ha, hb⟩ := h
  have ra := passAgree_apply ha hx
  have rb := passAgree_apply hb ra.1
  exact ⟨rb.1, ra.2, rb.2⟩

lemma filterPass_runList_agree {n : ℕ} {α : Type} [Field α] {i : Fin n}
    {fp gp : FilterPass n α} {xs ys : List (Frame n α)}
    (h : passAgree i fp gp) (hxy : framesAgree i xs ys) :
    framesAgree i (fp.runList xs).1 (gp.runList ys).1 := by
  induction hxy generalizing fp gp with
  | nil => exact List.Forall₂.nil
  | cons hx _ ih =>
      have r := passAgree_apply h hx
      exact List.Forall₂.cons r.1 (ih r.2)

lemma filter_runList_agree {n : ℕ} {α : Type} [Field α] {i : Fin n}
    {f g : Filter n α} {xs ys : List (Frame n α)}
    (h : filterAgree i f g) (hxy : framesAgree i xs ys) :
    framesAgree i (f.runList xs).1 (g.runList ys).1 := by
  induction hxy generalizing f g with
  | nil => exact List.Forall₂.nil
  | cons hx _ ih =>
      have r := filterAgree_apply h hx
      exact List.Forall₂.cons r.1 (ih r.2)

/-- Claim C10: per-channel noninterference. If two inputs agree exactly on
channel `i` (and the filter states do on their delay vectors), the outputs of
`FilterPass.apply`, `Filter.apply`, the iterated runs, and `FilteredSamples`
agree exactly on channel `i` at every sample. -/
theorem channel_noninterference {n : ℕ} {α : Type} [Field α] (i : Fin n)
    (fp gp : FilterPass n α) (f g : Filter n α) (x y : Frame n α)
    (xs ys : List (Frame n α))
    (hp : passAgree i fp gp) (hf : filterAgree i f g) (hx : x i = y i)
    (hxy : framesAgree i xs ys) :
    (fp.apply x).1 i = (gp.apply y).1 i
    ∧ (f.apply x).1 i = (g.apply y).1 i
    ∧ framesAgree i (fp.runList xs).1 (gp.runList ys).1
    ∧ framesAgree i (f.runList xs).1 (g.runList ys).1
    ∧ framesAgree i (FilteredSamples.mk xs f).toList (FilteredSamples.mk ys g).toList :=
  ⟨(passAgree_apply hp hx).1,
   (filterAgree_apply hf hx).1,
   filterPass_runList_agree hp hxy,
   filter_runList_agree hf hxy,
   filter_runList_agree hf hxy⟩

/-- Concrete instantiation of `channel_noninterference`: two one-sample inputs
that agree on channel 0 but differ on channel 1, with all hypotheses
discharged. -/
theorem channel_noninterference_witness :
    ((fun j : Fin 2 => if j = 0 then (5 : ℚ) else 7) 0
        = (fun j : Fin 2 => if j = 0 then (5 : ℚ) else 9) 0)
    ∧ ((FilterPass.fromCoeff (n := 2) (Coefficients.mk (1 : ℚ) 1 1 1 1)).apply
          (fun j : Fin 2 => if j = 0 then (5 : ℚ) else 7)).1 0
        = ((FilterPass.fromCoeff (n := 2) (Coefficients.mk (1 : ℚ) 1 1 1 1)).apply
          (fun j : Fin 2 => if j = 0 then (5 : ℚ) else 9)).1 0 := by
  have hx : (fun j : Fin 2 => if j = 0 then (5 : ℚ) else 7) 0
      = (fun j : Fin 2 => if j = 0 then (5 : ℚ) else 9) 0 := rfl
  have hp : passAgree (0 : Fin 2)
      (FilterPass.fromCoeff (Coefficients.mk (1 : ℚ) 1 1 1 1))
      (FilterPass.fromCoeff (Coefficients.mk (1 : ℚ) 1 1 1 1)) := ⟨rfl, rfl, rfl⟩
  have hf : filterAgree (0 : Fin 2)
      (Filter.mk (FilterPass.fromCoeff (Coefficients.mk (1 : ℚ) 1 1 1 1))
        (FilterPass.fromCoeff (Coefficients.mk (1 : ℚ) 1 1 1 1)))
      (Filter.mk (FilterPass.fromCoeff (Coefficients.mk (1 : ℚ) 1 1 1 1))
        (FilterPass.fromCoeff (Coefficients.mk (1 : ℚ) 1 1 1 1))) :=
    ⟨⟨rfl, rfl, rfl⟩, ⟨rfl, rfl, rfl⟩⟩
  exact ⟨hx,
    (channel_noninterference (0 : Fin 2) _ _ _ _ _ _ [] []
      hp hf hx List.Forall₂.nil).1⟩

lemma gating_pass1_eq {n : ℕ} {α : Type} (ops : FloatOps α) (w : Frame n α)
    (bs : List (Frame n α)) :
    ∀ (k : ℕ) (s : Stats n α) (r : List (ℕ × α × Frame n α)),
    (List.enumFrom k bs).foldl
      (fun (acc : Stats n α × List (ℕ × α × Frame n α)) jp =>
        let block_loudness := Util.loudness ops jp.2 w
        if ops.lt (absoluteLoudnessThreshold ops) block_loudness then
          (acc.1.add ops jp.2, acc.2 ++ [(jp.1, block_loudness, jp.2)])
        else acc)
      (s, r)
    = ((bs.filter fun p =>
          ops.lt (absoluteLoudnessThreshold ops) (Util.loudness ops p w)).foldl
        (fun acc p => acc.add ops p) s,
       r ++ ((List.enumFrom k bs).filter fun jp =>
          ops.lt (absoluteLoudnessThreshold ops) (Util.loudness ops jp.2 w)).map
          fun jp => (jp.1, Util.loudness ops jp.2 w, jp.2)) := by
  induction bs with
  | nil => intro k s r; simp
  | cons b bs ih =>
      intro k s r
      by_cases h : ops.lt (absoluteLoudnessThreshold ops) (Util.loudness ops b w)
        = true
      · simp [List.enumFrom, List.filter_cons, h, ih, List.append_assoc]
      · simp only [Bool.not_eq_true] at h
        simp [List.enumFrom, List.filter_cons, h, ih]

lemma gating_pass2_eq {n : ℕ} {α : Type} (ops : FloatOps α) (w : Frame n α)
    (θ : α) (bs : List (Frame n α)) :
    ∀ (k : ℕ) (s : Stats n α),
    (((List.enumFrom k bs).filter fun jp =>
        ops.lt (absoluteLoudnessThreshold ops) (Util.loudness ops jp.2 w)).map
        fun jp => (jp.1, Util.loudness ops jp.2 w, jp.2)).foldl
      (fun (acc : Stats n α) t =>
        if ops.lt θ t.2.1 then acc.add ops t.2.2 else acc) s
    = (((bs.filter fun p =>
          ops.lt (absoluteLoudnessThreshold ops) (Util.loudness ops p w)).filter
          fun p => ops.lt θ (Util.loudness ops p w)).foldl
        (fun acc p => acc.add ops p) s) := by
  induction bs with
  | nil => intro k s; simp
  | cons b bs ih =>
      intro k s
      by_cases h : ops.lt (absoluteLoudnessThreshold ops) (Util.loudness ops b w)
        = true
      · by_cases h2 : ops.lt θ (Util.loudness ops b w) = true
        · simp [List.enumFrom, List.filter_cons, h, h2, ih]
        · simp only [Bool.not_eq_true] at h2
          simp [List.enumFrom, List.filter_cons, h, h2, ih]
      · simp only [Bool.not_eq_true] at h
        simp [List.enumFrom, List.filter_cons, h, ih]

lemma statsOf_count {n : ℕ} {α : Type} (ops : FloatOps α)
    (l : List (Frame n α)) :
    ∀ s : Stats n α,
    (l.foldl (fun acc p => acc.add ops p) s).count = s.count + l.length := by
  induction l with
  | nil => intro s; simp
  | cons p l ih =>
      intro s
      rw [List.foldl_cons, ih]
      simp [Stats.add]
      omega

lemma statsOf_total_fieldOps {n : ℕ} {α : Type} [LinearOrderedField α]
    (log10 : α → α) (l : List (Frame n α)) :
    ∀ (s : Stats n α) (i : Fin n),
    (l.foldl (fun acc p => acc.add (fieldOps α log10) p) s).total i
      = s.total i + (l.map fun p => p i).sum := by
  induction l with
  | nil => intro s i; simp
  | cons p l ih =>
      intro s i
      rw [List.foldl_cons, ih]
      simp [Stats.add, fieldOps]
      ring

lemma statsOf_mean_fieldOps {n : ℕ} {α : Type} [LinearOrderedField α]
    (log10 : α → α) (l : List (Frame n α)) (i : Fin n) :
    ((l.foldl (fun acc p => acc.add (fieldOps α log10) p)
        (Stats.new n (fieldOps α log10))).mean (fieldOps α log10)) i
      = listMean l i := by
  simp only [Stats.mean]
  rw [statsOf_total_fieldOps, statsOf_count]
  simp [Stats.new, fieldOps, listMean]

lemma foldl_add_eq_sum {α : Type} [LinearOrderedField α] (l : List α) :
    ∀ a : α, l.foldl (fun x y => x + y) a = a + l.sum := by
  induction l with
  | nil => intro a; simp
  | cons x xs ih => intro a; simp [ih]; ring

lemma dot_fieldOps {n : ℕ} {α : Type} [LinearOrderedField α] (log10 : α → α)
    (w p : Frame n α) :
    (fieldOps α log10).dot w p = ∑ i, w i * p i := by
  simp [FloatOps.dot, fieldOps, foldl_add_eq_sum, List.sum_ofFn]

lemma loudness_fieldOps {n : ℕ} {α : Type} [LinearOrderedField α]
    (log10 : α → α) (p w : Frame n α) :
    Util.loudness (fieldOps α log10) p w = Lspec log10 w p := by
  simp only [Util.loudness]
  rw [dot_fieldOps]
  simp [fieldOps, Lspec]

lemma statsOf_meanFun_fieldOps {n : ℕ} {α : Type} [LinearOrderedField α]
    (log10 : α → α) (l : List (Frame n α)) :
    ((l.foldl (fun acc p => acc.add (fieldOps α log10) p)
        (Stats.new n (fieldOps α log10))).mean (fieldOps α log10))
      = listMean l :=
  funext fun i => statsOf_mean_fieldOps log10 l i

lemma gate_filter_eq {n : ℕ} {α : Type} [LinearOrderedField α]
    (log10 : α → α) (blocks : List (Frame n α)) (w : Frame n α) :
    (blocks.filter fun p =>
        (fieldOps α log10).lt (absoluteLoudnessThreshold (fieldOps α log10))
          (Util.loudness (fieldOps α log10) p w))
      = absGated log10 blocks w := by
  unfold absGated
  apply List.filter_congr
  intro p _
  rw [loudness_fieldOps]
  simp [fieldOps, absoluteLoudnessThreshold]

/-- Claim C1: over the idealized field model, `Loudness.fromGatedPowers`
returns the loudness of the mean of the second accumulator; the loudness
formula is `-0.691 + 10 * log10` of the weighted power sum; the first
accumulator averages exactly the blocks with loudness strictly above -70.0,
the relative threshold is the loudness of their mean minus 10.0, and the
second accumulator averages exactly the retained blocks with recorded
loudness strictly above the relative threshold (ties excluded by
strictness). -/
theorem fromGatedPowers_gating {n : ℕ} {α : Type} [LinearOrderedField α]
    (log10 : α → α) (blocks : List (Frame n α)) (w : Frame n α) :
    (∀ p : Frame n α, Util.loudness (fieldOps α log10) p w = Lspec log10 w p)
    ∧ Loudness.fromGatedPowers (fieldOps α log10) blocks w
        = Lspec log10 w (listMean (relGated log10 blocks w))
    ∧ (∀ p : Frame n α,
        p ∈ absGated log10 blocks w ↔ p ∈ blocks ∧ (-70 : α) < Lspec log10 w p)
    ∧ (∀ p : Frame n α,
        p ∈ relGated log10 blocks w ↔
          p ∈ absGated log10 blocks w
          ∧ relThreshold log10 blocks w < Lspec log10 w p)
    ∧ relThreshold log10 blocks w
        = Lspec log10 w (listMean (absGated log10 blocks w)) - 10 := by
  refine ⟨fun p => loudness_fieldOps log10 p w, ?_, ?_, ?_, rfl⟩
  · simp only [Loudness.fromGatedPowers]
    rw [show blocks.enum = List.enumFrom 0 blocks from rfl]
    rw [gating_pass1_eq]
    simp only [List.nil_append]
    rw [gating_pass2_eq]
    rw [gate_filter_eq, statsOf_meanFun_fieldOps, statsOf_meanFun_fieldOps,
      loudness_fieldOps, loudness_fieldOps]
    congr 1
    show listMean ((absGated log10 blocks w).filter _) = _
    unfold relGated
    apply congrArg
    apply List.filter_congr
    intro p _
    rw [loudness_fieldOps]
    simp [fieldOps, relThreshold]
  · intro p
    simp [absGated, List.mem_filter]
  · intro p
    simp [relGated, List.mem_filter]

/-- A concrete `log10` on the `F64` model for evaluating the gating algorithm
at specific inputs: it agrees with the mathematical base-10 logarithm at the
values probed there (`log10 1 = 0`), maps `nan` to `nan` and `+inf` to `+inf`
as IEEE `log10` does, and is `nan` elsewhere. -/
def log10c : F64 → F64
  | F64.num q => if q = 1 then F64.num 0 else F64.nan
  | F64.nan => F64.nan
  | F64.pinf => F64.pinf
  | F64.ninf => F64.nan

/-- Claim C8, counterexample: a sequence containing a block with NaN power
does not yield an undefined result. The loudness of the NaN block is NaN, the
strict IEEE comparison `NaN > -70.0` is false, so the block is silently
dropped by the absolute gate: the result is the same well-defined value
obtained without the NaN block, not NaN. -/
theorem fromGatedPowers_nan_not_propagated :
    Loudness.fromGatedPowers (f64Ops log10c)
        [(fun _ : Fin 1 => F64.num 1), (fun _ => F64.nan)] (fun _ => F64.num 1)
      = F64.num (-(691 / 1000))
    ∧ Loudness.fromGatedPowers (f64Ops log10c)
        [(fun _ : Fin 1 => F64.num 1), (fun _ => F64.nan)] (fun _ => F64.num 1)
      ≠ F64.nan
    ∧ Loudness.fromGatedPowers (f64Ops log10c)
        [(fun _ : Fin 1 => F64.num 1), (fun _ => F64.nan)] (fun _ => F64.num 1)
      = Loudness.fromGatedPowers (f64Ops log10c)
        [(fun _ : Fin 1 => F64.num 1)] (fun _ => F64.num 1) := by
  have h1 : Loudness.fromGatedPowers (f64Ops log10c)
      [(fun _ : Fin 1 => F64.num 1), (fun _ => F64.nan)] (fun _ => F64.num 1)
      = F64.num (-(691 / 1000)) := by
    norm_num [Loudness.fromGatedPowers, Util.loudness, FloatOps.dot, f64Ops,
      log10c, Stats.new, Stats.add, Stats.mean, absoluteLoudnessThreshold,
      F64.add, F64.mul, F64.sub, F64.neg, F64.div, F64.lt,
      List.ofFn_succ, List.ofFn_zero, List.enum, List.enumFrom]
  have h2 : Loudness.fromGatedPowers (f64Ops log10c)
      [(fun _ : Fin 1 => F64.num 1)] (fun _ => F64.num 1)
      = F64.num (-(691 / 1000)) := by
    norm_num [Loudness.fromGatedPowers, Util.loudness, FloatOps.dot, f64Ops,
      log10c, Stats.new, Stats.add, Stats.mean, absoluteLoudnessThreshold,
      F64.add, F64.mul, F64.sub, F64.neg, F64.div, F64.lt,
      List.ofFn_succ, List.ofFn_zero, List.enum, List.enumFrom]
  refine ⟨h1, ?_, h1.trans h2.symm⟩
  rw [h1]
  simp

/-- Claim C8 as amended: non-finite powers are not specially detected or
rejected anywhere in the gating algorithm — they flow through ordinary IEEE
arithmetic and comparisons — and consequently a block whose loudness evaluates
to NaN fails both strict gates and is transparent: removing it does not change
the result at all. -/
theorem fromGatedPowers_nan_transparent {n : ℕ} (log10 : F64 → F64)
    (w b : Frame n F64) (xs ys : List (Frame n F64))
    (hb : Util.loudness (f64Ops log10) b w = F64.nan) :
    Loudness.fromGatedPowers (f64Ops log10) (xs ++ b :: ys) w
      = Loudness.fromGatedPowers (f64Ops log10) (xs ++ ys) w := by
  have hgate : ((f64Ops log10).lt (absoluteLoudnessThreshold (f64Ops log10))
      (Util.loudness (f64Ops log10) b w)) = false := by
    rw [hb]; rfl
  have hfilter : ((xs ++ b :: ys).filter fun p =>
      (f64Ops log10).lt (absoluteLoudnessThreshold (f64Ops log10))
        (Util.loudness (f64Ops log10) p w))
      = ((xs ++ ys).filter fun p =>
      (f64Ops log10).lt (absoluteLoudnessThreshold (f64Ops log10))
        (Util.loudness (f64Ops log10) p w)) := by
    simp [List.filter_append, List.filter_cons, hgate]
  simp only [Loudness.fromGatedPowers]
  rw [show (xs ++ b :: ys).enum = List.enumFrom 0 (xs ++ b :: ys) from rfl,
      show (xs ++ ys).enum = List.enumFrom 0 (xs ++ ys) from rfl,
      gating_pass1_eq, gating_pass1_eq]
  simp only [List.nil_append]
  rw [gating_pass2_eq, gating_pass2_eq, hfilter]

/-- Concrete instantiation of `fromGatedPowers_nan_transparent`: the
NaN-loudness hypothesis discharged for a one-channel NaN-power block. -/
theorem fromGatedPowers_nan_transparent_witness :
    (Util.loudness (f64Ops log10c) (fun _ : Fin 1 => F64.nan)
        (fun _ => F64.num 1) = F64.nan)
    ∧ Loudness.fromGatedPowers (f64Ops log10c)
        ([fun _ : Fin 1 => F64.num 1] ++ (fun _ => F64.nan) :: [])
        (fun _ => F64.num 1)
      = Loudness.fromGatedPowers (f64Ops log10c)
        ([fun _ : Fin 1 => F64.num 1] ++ []) (fun _ => F64.num 1) :=
  ⟨by simp [Util.loudness, FloatOps.dot, f64Ops, log10c, F64.mul, F64.add,
      List.ofFn_succ, List.ofFn_zero],
   fromGatedPowers_nan_transparent log10c (fun _ => F64.num 1)
     (fun _ => F64.nan) [fun _ : Fin 1 => F64.num 1] []
     (by simp [Util.loudness, FloatOps.dot, f64Ops, log10c, F64.mul, F64.add,
       List.ofFn_succ, List.ofFn_zero])⟩

end Regulus
